import Mathlib

/-!
Shallow embedding of the indicator-computation core of the watchlist
dashboard (src/js/charts.js) and of the Pearson correlation helper
(src/js/app.js, `_pearson`).

Modelling conventions:
* JS numbers are modelled as exact rationals (`ℚ`).  `x.toFixed(f)` followed
  by `parseFloat` is modelled as `⌊x * 10^f + 1/2⌋ / 10^f` (ECMAScript
  `toFixed` picks the closest `n / 10^f`, ties towards the larger `n`).
* `Math.sqrt` takes irrational values in general, so the charts.js pipeline
  is parameterised by an abstract square-root function `msqrt : ℚ → ℚ`;
  every theorem assumes of `msqrt` only the properties of the real square
  root it actually needs (nonnegativity on nonnegative inputs, `msqrt 0 = 0`),
  and every statement is proved for all such `msqrt`.  For the Pearson
  correlation (whose range bound genuinely depends on `sqrt x ^ 2 = x`) the
  definition is generic in the scalar field and is instantiated at `ℝ` with
  `Real.sqrt` in the corresponding theorem.
* JS `null` (and out-of-range array reads yielding `undefined`) are modelled
  by `Option`; a JS array is a `List`, and `arr[i]` reads through a possibly
  negative index are modelled by `jsGet` over `ℤ`.
* JS relational operators coerce `null` to `0`; where the source compares a
  possibly-null value (`prevSt.slowK <= prevSt.slowD` in `rsiStoch`) the
  embedding uses `Option.getD 0`.
-/

/-- Models `parseFloat(x.toFixed(2))`: round to 2 decimal places, ties up. -/
def round2 (x : ℚ) : ℚ := (⌊x * 100 + 1/2⌋ : ℚ) / 100

/-- Models `parseFloat(x.toFixed(4))`: round to 4 decimal places, ties up. -/
def round4 (x : ℚ) : ℚ := (⌊x * 10000 + 1/2⌋ : ℚ) / 10000

/-- charts.js `mean`: arithmetic mean, `0` for an empty array. -/
def mean (arr : List ℚ) : ℚ :=
  if arr.length = 0 then 0 else arr.sum / arr.length

/-- The population variance summed term, as computed inside `stdDev`. -/
def variance (arr : List ℚ) : ℚ :=
  (arr.map (fun v => (v - mean arr) ^ 2)).sum / arr.length

/-- charts.js `stdDev` (population standard deviation): `0` for fewer than
2 points, otherwise `Math.sqrt(variance)` with `Math.sqrt` abstracted as
`msqrt`. -/
def stdDev (msqrt : ℚ → ℚ) (arr : List ℚ) : ℚ :=
  if arr.length < 2 then 0 else msqrt (variance arr)

/-- A non-null Bollinger band value `{upper, middle, lower}`.  The source
emits either all three `null` or all three numbers, so a list entry is an
`Option Band`. -/
structure Band where
  upper : ℚ
  middle : ℚ
  lower : ℚ
deriving DecidableEq, Repr

/-- The band formula shared by `bollingerBands` and the short-history
fallback of `latestBB`: mean ± mult·stdDev, each rounded to 2 decimals. -/
def bandOf (msqrt : ℚ → ℚ) (window : List ℚ) (mult : ℚ) : Band :=
  let ma := mean window
  let sd := stdDev msqrt window
  { upper := round2 (ma + mult * sd)
    middle := round2 ma
    lower := round2 (ma - mult * sd) }

/-- Models `closes.slice(i - period + 1, i + 1)`: the trailing window of `period`
closes ending at index `i` (for `i ≥ period - 1`). -/
def windowEnd (closes : List ℚ) (period i : ℕ) : List ℚ :=
  (closes.drop (i + 1 - period)).take period

/-- charts.js `bollingerBands(closes, period = 20, mult = 2)`: one entry per
close; `null` while `i < period - 1`, else the band over the trailing
window. -/
def bollingerBands (msqrt : ℚ → ℚ) (closes : List ℚ) (period : ℕ) (mult : ℚ) :
    List (Option Band) :=
  (List.range closes.length).map fun i =>
    if i < period - 1 then none
    else some (bandOf msqrt (windowEnd closes period i) mult)

/-- charts.js `latestBB(closes, period = 20, mult = 2)`: last band of
`bollingerBands`, or, when fewer than `period` closes exist, the band over
all available closes (null below 2 points).  `bands[bands.length - 1]` on an
empty array yields `undefined`, modelled by `Option.join` of `getLast?`. -/
def latestBB (msqrt : ℚ → ℚ) (closes : List ℚ) (period : ℕ) (mult : ℚ) :
    Option Band :=
  if closes.length < period then
    if closes.length < 2 then none
    else some (bandOf msqrt closes mult)
  else ((bollingerBands msqrt closes period mult).getLast?).join

/-- charts.js `bbRatio(currentPrice, upper, lower)`: fractional position of
the price between the bands, `0.5` when the band range is degenerate,
rounded to 4 decimals then clamped to `[0, 1]`. -/
def bbRatio (currentPrice upper lower : ℚ) : ℚ :=
  let range := upper - lower
  if range ≤ 0 then 1/2
  else max 0 (min 1 (round4 ((currentPrice - lower) / range)))

/-- The alert record `{level, label, stars, ratio}` returned by
`alertLevel`. -/
structure Alert where
  level : ℕ
  label : String
  stars : String
  ratio : ℚ
deriving DecidableEq, Repr

/-- charts.js `alertLevel(currentPrice, upper, middle, lower)`. -/
def alertLevel (currentPrice upper middle lower : ℚ) : Alert :=
  let ratio := bbRatio currentPrice upper lower
  if 1/2 ≤ ratio then { level := 0, label := "정상", stars := "", ratio := ratio }
  else
    let lowerRange := middle - lower
    let lowerRatio := if 0 < lowerRange then (currentPrice - lower) / lowerRange else 1
    if lowerRatio < 1/4 then { level := 2, label := "BB하단근접", stars := "★★", ratio := ratio }
    else if lowerRatio < 11/20 then { level := 1, label := "BB하단접근", stars := "★", ratio := ratio }
    else { level := 0, label := "BB중단이하", stars := "", ratio := ratio }

/-- One OHLCV bar.  `date` is an ordered day identifier; prices and volume
are JS numbers. -/
structure Candle where
  date : ℕ
  open_ : ℚ
  high : ℚ
  low : ℚ
  close : ℚ
  volume : ℚ
deriving DecidableEq, Repr

instance : Inhabited Candle := ⟨⟨0, 0, 0, 0, 0, 0⟩⟩

/-- The slice of the `fetchStock` result that `analyze`/`analyzeAll`
consume: full series (`allCandles`, possibly absent, then `candles` is used
in its place), extracted closes, the display slice `candles`, and the
current price. -/
structure StockData where
  allCandles : Option (List Candle)
  closes : List ℚ
  candles : List Candle
  currentPrice : ℚ
deriving Repr

/-- Models `arr[i]` for a possibly negative / out-of-range integer index: JS yields
`undefined`, modelled as `none`. -/
def jsGet (l : List α) (i : ℤ) : Option α :=
  if i < 0 then none else l.get? i.toNat

/-- Models `Array.prototype.map((x, i) => f(i, x))` starting the index at `k`. -/
def mapIdxFrom (f : ℕ → α → β) : ℕ → List α → List β
  | _, [] => []
  | k, a :: as => f k a :: mapIdxFrom f (k + 1) as

/-- A display candle extended with the Bollinger fields, as built inside
`analyze` (`{...c, bbUpper, bbMiddle, bbLower}`). -/
structure CandleBB where
  candle : Candle
  bbUpper : Option ℚ
  bbMiddle : Option ℚ
  bbLower : Option ℚ
deriving DecidableEq, Repr

/-- The fields `analyze` adds to the stock record
(`{bb, bbRatio, alert, candlesWithBB}`; the untouched input fields are
spread through unchanged and are omitted here). -/
structure AnalyzeResult where
  bb : Option Band
  bbRatio : ℚ
  alert : Alert
  candlesWithBB : List CandleBB
deriving Repr

/-- charts.js `analyze(stockData, period = 20)`. -/
def analyze (msqrt : ℚ → ℚ) (sd : StockData) (period : ℕ) : AnalyzeResult :=
  let allBands := bollingerBands msqrt sd.closes period 2
  let latest := latestBB msqrt sd.closes period 2
  let totalLen := (sd.allCandles.getD sd.candles).length
  let sliceLen := sd.candles.length
  let offset : ℤ := (totalLen : ℤ) - (sliceLen : ℤ)
  let candlesWithBB := mapIdxFrom (fun i c =>
    let bi := offset + i
    { candle := c
      bbUpper := ((jsGet allBands bi).join).map Band.upper
      bbMiddle := ((jsGet allBands bi).join).map Band.middle
      bbLower := ((jsGet allBands bi).join).map Band.lower : CandleBB }) 0 sd.candles
  let alert :=
    match latest with
    | some b => alertLevel sd.currentPrice b.upper b.middle b.lower
    | none => { level := 0, label := "--", stars := "", ratio := 1/2 }
  { bb := latest
    bbRatio := alert.ratio
    alert := alert
    candlesWithBB := candlesWithBB }

/-- Trading signal markers (`'BUY'` / `'SELL'`). -/
inductive Sig where
  | BUY
  | SELL
deriving DecidableEq, Repr

/-- Raw EOM value at index `i` (`null` at 0 and out of range): 0 for a
zero-range or zero-volume bar, else distance moved over box ratio. -/
def eomRawF (candles : List Candle) (i : ℕ) : Option ℚ :=
  if i = 0 ∨ candles.length ≤ i then none
  else
    let c := candles.getD i default
    let p := candles.getD (i - 1) default
    let hl := c.high - c.low
    if hl = 0 ∨ c.volume = 0 then some 0
    else
      let dm := (c.high + c.low) / 2 - (p.high + p.low) / 2
      let br := c.volume / hl
      if br ≠ 0 then some (dm / br) else some 0

/-- The value `eomArr[i]`: SMA of the raw EOM over the trailing `period` entries,
computed only from index `period` on and only when the window is free of
nulls. -/
def eomArrF (candles : List Candle) (period i : ℕ) : Option ℚ :=
  if i < period ∨ candles.length ≤ i then none
  else
    let slice := (List.range period).map fun j => eomRawF candles (i - period + 1 + j)
    if slice.any (fun v => v.isNone) then none
    else some (mean (slice.filterMap id))

/-- The value `sigArr[i]`: SMA of `eomArr` over the trailing `signal` entries,
computed from index `period + signal - 1` on, same null rule. -/
def eomSigF (candles : List Candle) (period signal i : ℕ) : Option ℚ :=
  if i < period + signal - 1 ∨ candles.length ≤ i then none
  else
    let slice := (List.range signal).map fun j => eomArrF candles period (i - signal + 1 + j)
    if slice.any (fun v => v.isNone) then none
    else some (mean (slice.filterMap id))

/-- The cross-detection chain of `eom`: evaluated only when the current and
previous EOM and signal values are all non-null; signal-line crosses first,
then zero-line crosses, at most one signal per bar. -/
def eomCrossF (candles : List Candle) (period signal i : ℕ) : Option Sig :=
  match eomArrF candles period i, eomSigF candles period signal i with
  | some e, some s =>
    match eomArrF candles period (i - 1), eomSigF candles period signal (i - 1) with
    | some ep, some sp =>
      if ep ≤ sp ∧ s < e then some .BUY
      else if sp ≤ ep ∧ e < s then some .SELL
      else if ep < 0 ∧ 0 ≤ e then some .BUY
      else if 0 ≤ ep ∧ e < 0 then some .SELL
      else none
    | _, _ => none
  | _, _ => none

/-- One output entry of `eom`. -/
structure EomEntry where
  eom : Option ℚ
  signal : Option ℚ
  crossSignal : Option Sig
deriving DecidableEq, Repr

/-- charts.js `eom(candles, period = 14, signal = 14)`. -/
def eom (candles : List Candle) (period signal : ℕ) : List EomEntry :=
  (List.range candles.length).map fun i =>
    { eom := eomArrF candles period i
      signal := eomSigF candles period signal i
      crossSignal := eomCrossF candles period signal i }

/-- Difference of consecutive closes, `closes[i] - closes[i-1]`. -/
def closeDiff (closes : List ℚ) (i : ℕ) : ℚ :=
  closes.getD i 0 - closes.getD (i - 1) 0

/-- The running Wilder averages `(avgGain, avgLoss)` of `rsi` after `j`
smoothing steps; step 0 is the simple average over the first `period`
differences. -/
def rsiAvgs (closes : List ℚ) (period : ℕ) : ℕ → ℚ × ℚ
  | 0 =>
    (((List.range period).map (fun j =>
        let d := closeDiff closes (j + 1)
        if 0 < d then d else 0)).sum / period,
     ((List.range period).map (fun j =>
        let d := closeDiff closes (j + 1)
        if 0 < d then 0 else -d)).sum / period)
  | j + 1 =>
    let ga := rsiAvgs closes period j
    let d := closeDiff closes (period + j + 1)
    let gain := if 0 < d then d else 0
    let loss := if d < 0 then -d else 0
    ((ga.1 * ((period : ℚ) - 1) + gain) / period,
     (ga.2 * ((period : ℚ) - 1) + loss) / period)

/-- The RSI value at index `i ≥ period`: `100` when the average loss is 0,
`0` when the average gain is 0, else the rounded Wilder formula. -/
def rsiValF (closes : List ℚ) (period i : ℕ) : ℚ :=
  let ga := rsiAvgs closes period (i - period)
  if ga.2 = 0 then 100
  else if ga.1 = 0 then 0
  else round2 (100 - 100 / (1 + ga.1 / ga.2))

/-- charts.js `rsi(closes, period = 14)`: all null when fewer than
`period + 1` closes exist, else null below index `period` and the Wilder
RSI from there on. -/
def rsi (closes : List ℚ) (period : ℕ) : List (Option ℚ) :=
  if closes.length < period + 1 then List.replicate closes.length none
  else (List.range closes.length).map fun i =>
    if i < period then none else some (rsiValF closes period i)

/-- Models `Math.min` over the lows of a nonempty candle window. -/
def minLow (l : List Candle) : ℚ :=
  match l with
  | [] => 0
  | c :: rest => rest.foldl (fun a c2 => min a c2.low) c.low

/-- Models `Math.max` over the highs of a nonempty candle window. -/
def maxHigh (l : List Candle) : ℚ :=
  match l with
  | [] => 0
  | c :: rest => rest.foldl (fun a c2 => max a c2.high) c.high

/-- Models `candles.slice(i - k + 1, i + 1)`: trailing window of `k` candles. -/
def candleWindow (candles : List Candle) (k i : ℕ) : List Candle :=
  (candles.drop (i + 1 - k)).take k

/-- Raw Fast %K at index `i ≥ k1 - 1`: position of the close inside the
trailing high-low range, `50` for a zero range. -/
def fastKF (candles : List Candle) (k1 i : ℕ) : Option ℚ :=
  if i < k1 - 1 ∨ candles.length ≤ i then none
  else
    let slice := candleWindow candles k1 i
    let lo := minLow slice
    let hi := maxHigh slice
    let rng := hi - lo
    if rng = 0 then some 50
    else some (round2 (((candles.getD i default).close - lo) / rng * 100))

/-- Slow %K: SMA of Fast %K over `k2` entries, from index `k1 + k2 - 2`,
skipped while the window still contains nulls. -/
def slowKF (candles : List Candle) (k1 k2 i : ℕ) : Option ℚ :=
  if i < k1 + k2 - 2 ∨ candles.length ≤ i then none
  else
    let slice := (List.range k2).map fun j => fastKF candles k1 (i - k2 + 1 + j)
    if slice.any (fun v => v.isNone) then none
    else some (round2 (mean (slice.filterMap id)))

/-- Slow %D: SMA of Slow %K over `d` entries, from index `k1 + k2 + d - 3`. -/
def slowDF (candles : List Candle) (k1 k2 d i : ℕ) : Option ℚ :=
  if i < k1 + k2 + d - 3 ∨ candles.length ≤ i then none
  else
    let slice := (List.range d).map fun j => slowKF candles k1 k2 (i - d + 1 + j)
    if slice.any (fun v => v.isNone) then none
    else some (round2 (mean (slice.filterMap id)))

/-- One output entry of `stochastic`. -/
structure StEntry where
  fastK : Option ℚ
  slowK : Option ℚ
  slowD : Option ℚ
deriving DecidableEq, Repr

/-- charts.js `stochastic(candles, k1 = 14, k2 = 3, d = 3)`. -/
def stochastic (candles : List Candle) (k1 k2 d : ℕ) : List StEntry :=
  (List.range candles.length).map fun i =>
    { fastK := fastKF candles k1 i
      slowK := slowKF candles k1 k2 i
      slowD := slowDF candles k1 k2 d i }

/-- The options record of `rsiStoch`
(`{rsiPeriod = 14, k1 = 14, k2 = 3, d = 3, ob = 80, os = 20}`). -/
structure RsOpts where
  rsiPeriod : ℕ
  k1 : ℕ
  k2 : ℕ
  d : ℕ
  ob : ℚ
  os : ℚ
deriving Repr

/-- One output entry of `rsiStoch`. -/
structure RsEntry where
  rsi : Option ℚ
  slowK : Option ℚ
  slowD : Option ℚ
  signal : Option Sig
deriving DecidableEq, Repr

/-- charts.js `rsiStoch(closes, candles, opts)`.  The map runs over the RSI
array; `stochArr[i]` (and `stochArr[i-1]` read as `prevSt`) is modelled by
`getD` with an all-null entry.  In the source the null checks on the
previous bar cover only `prevSt.slowK`; the comparison
`prevSt.slowK <= prevSt.slowD` coerces a null `prevSt.slowD` to `0`,
which the embedding renders with `Option.getD 0`. -/
def rsiStoch (closes : List ℚ) (candles : List Candle) (opts : RsOpts) :
    List RsEntry :=
  let rsiArr := rsi closes opts.rsiPeriod
  let stochArr := stochastic candles opts.k1 opts.k2 opts.d
  mapIdxFrom (fun i r =>
    let st := stochArr.getD i { fastK := none, slowK := none, slowD := none }
    let signal :=
      match r, st.slowK, st.slowD with
      | some rv, some kv, some dv =>
        let prev := stochArr.getD (i - 1) { fastK := none, slowK := none, slowD := none }
        let prevOk := 0 < i ∧ prev.slowK ≠ none
        let kCrossUp := prevOk ∧ prev.slowK.getD 0 ≤ prev.slowD.getD 0 ∧ dv < kv
        let kCrossDown := prevOk ∧ prev.slowD.getD 0 ≤ prev.slowK.getD 0 ∧ kv < dv
        let s1 : Option Sig :=
          if rv < 50 ∧ kv < opts.os + 10 ∧ kCrossUp then some .BUY else none
        if 50 < rv ∧ opts.ob - 10 < kv ∧ kCrossDown then some .SELL else s1
      | _, _, _ => none
    { rsi := r, slowK := st.slowK, slowD := st.slowD, signal := signal : RsEntry })
    0 rsiArr

/-- A display candle carrying all ten indicator fields, as assembled by
`analyzeAll`. -/
structure CandleInd where
  candle : Candle
  bbUpper : Option ℚ
  bbMiddle : Option ℚ
  bbLower : Option ℚ
  eom : Option ℚ
  eomSignal : Option ℚ
  eomCross : Option Sig
  rsi : Option ℚ
  slowK : Option ℚ
  slowD : Option ℚ
  rsiStSignal : Option Sig
deriving DecidableEq, Repr

/-- The result of `analyzeAll`: the `analyze` fields with `candlesWithBB`
replaced by the fully decorated records. -/
structure AnalyzeAllResult where
  bb : Option Band
  bbRatio : ℚ
  alert : Alert
  candlesWithBB : List CandleInd
deriving Repr

/-- charts.js `analyzeAll(stockData, bbPeriod = 20)`: runs `analyze`, then
computes EOM (14, 14) and RSI+Stochastic (14, 14, 3, 3, 80, 20) over the
full series and maps them onto the display slice at `offset + i`. -/
def analyzeAll (msqrt : ℚ → ℚ) (sd : StockData) (bbPeriod : ℕ) :
    AnalyzeAllResult :=
  let base := analyze msqrt sd bbPeriod
  let allC := sd.allCandles.getD sd.candles
  let allCls := sd.closes
  let total := allC.length
  let slice := sd.candles.length
  let offset : ℤ := (total : ℤ) - (slice : ℤ)
  let eomAll := eom allC 14 14
  let rsStAll := rsiStoch allCls allC
    { rsiPeriod := 14, k1 := 14, k2 := 3, d := 3, ob := 80, os := 20 }
  let candlesWithIndicators := mapIdxFrom (fun i c =>
    let bi := offset + i
    { candle := c.candle
      bbUpper := c.bbUpper
      bbMiddle := c.bbMiddle
      bbLower := c.bbLower
      eom := (jsGet eomAll bi).bind EomEntry.eom
      eomSignal := (jsGet eomAll bi).bind EomEntry.signal
      eomCross := (jsGet eomAll bi).bind EomEntry.crossSignal
      rsi := (jsGet rsStAll bi).bind RsEntry.rsi
      slowK := (jsGet rsStAll bi).bind RsEntry.slowK
      slowD := (jsGet rsStAll bi).bind RsEntry.slowD
      rsiStSignal := (jsGet rsStAll bi).bind RsEntry.signal : CandleInd })
    0 base.candlesWithBB
  { bb := base.bb
    bbRatio := base.bbRatio
    alert := base.alert
    candlesWithBB := candlesWithIndicators }

/-- A candle as consumed by `_pearson` (only `date` and `close` are read),
generic in the scalar field so the same definition can be run on `ℚ` and
reasoned about on `ℝ` (JS `Math.sqrt`). -/
structure PCandle (F : Type) where
  date : ℕ
  close : F
deriving Repr

/-- Models `Map.prototype.set`: replaces the value in place when the key exists,
appends otherwise (so the key list stays duplicate-free in insertion
order). -/
def mapSet {F : Type} : List (ℕ × F) → ℕ → F → List (ℕ × F)
  | [], k, v => [(k, v)]
  | (k2, v2) :: rest, k, v =>
    if k2 = k then (k, v) :: rest else (k2, v2) :: mapSet rest k v

/-- Models `Map.prototype.get` (`none` for a missing key). -/
def mGet {F : Type} : List (ℕ × F) → ℕ → Option F
  | [], _ => none
  | (k2, v) :: rest, k => if k2 = k then some v else mGet rest k

/-- The key list of a map, in insertion order (`[...m.keys()]`). -/
def mKeys {F : Type} (m : List (ℕ × F)) : List ℕ := m.map Prod.fst

/-- The tail-recursive body of `rateMap` inside `_pearson`: walks
consecutive candle pairs and stores `(cur - prev) / prev` under the current
date whenever both closes are truthy (nonzero). -/
def rateMapAux {F : Type} [Field F] [DecidableEq F] :
    PCandle F → List (PCandle F) → List (ℕ × F) → List (ℕ × F)
  | _, [], m => m
  | prev, c :: rest, m =>
    rateMapAux c rest
      (if prev.close ≠ 0 ∧ c.close ≠ 0 then
        mapSet m c.date ((c.close - prev.close) / prev.close)
      else m)

/-- Models `rateMap(candles)`: date-keyed map of day-over-day simple returns. -/
def rateMap {F : Type} [Field F] [DecidableEq F] (candles : List (PCandle F)) :
    List (ℕ × F) :=
  match candles with
  | [] => []
  | c :: rest => rateMapAux c rest []

/-- The common dates of the two return maps, in A's key order
(`[...mA.keys()].filter(d => mB.has(d))`). -/
def pDates {F : Type} [Field F] [DecidableEq F]
    (A B : List (PCandle F)) : List ℕ :=
  (mKeys (rateMap A)).filter fun d => (mGet (rateMap B) d).isSome

/-- The return of series `S` on date `d` (present for every common date). -/
def pRate {F : Type} [Field F] [DecidableEq F]
    (S : List (PCandle F)) (d : ℕ) : F :=
  (mGet (rateMap S) d).getD 0

/-- Sum of `f` over a date list. -/
def pSum {F : Type} [Field F] (dates : List ℕ) (f : ℕ → F) : F :=
  (dates.map f).sum

/-- The quantity `meanX` inside `_pearson`: mean of A's returns over the common dates. -/
def pMeanX {F : Type} [Field F] [DecidableEq F] (A B : List (PCandle F)) : F :=
  pSum (pDates A B) (pRate A) / ((pDates A B).length : F)

/-- The quantity `meanY` inside `_pearson`: mean of B's returns over the common dates. -/
def pMeanY {F : Type} [Field F] [DecidableEq F] (A B : List (PCandle F)) : F :=
  pSum (pDates A B) (pRate B) / ((pDates A B).length : F)

/-- The accumulated numerator `num = Σ dx·dy` of `_pearson`. -/
def pNum {F : Type} [Field F] [DecidableEq F] (A B : List (PCandle F)) : F :=
  pSum (pDates A B) fun d => (pRate A d - pMeanX A B) * (pRate B d - pMeanY A B)

/-- The accumulated `denX = Σ dx·dx` of `_pearson`. -/
def pDenX {F : Type} [Field F] [DecidableEq F] (A B : List (PCandle F)) : F :=
  pSum (pDates A B) fun d => (pRate A d - pMeanX A B) * (pRate A d - pMeanX A B)

/-- The accumulated `denY = Σ dy·dy` of `_pearson`. -/
def pDenY {F : Type} [Field F] [DecidableEq F] (A B : List (PCandle F)) : F :=
  pSum (pDates A B) fun d => (pRate B d - pMeanY A B) * (pRate B d - pMeanY A B)

/-- app.js `_pearson(candlesA, candlesB)`: null below 5 common dates, null
for a zero denominator (`Math.sqrt(denX * denY)`, abstracted as `sqrtF`),
else the correlation of the two return series. -/
def pearson {F : Type} [Field F] [DecidableEq F] (sqrtF : F → F)
    (A B : List (PCandle F)) : Option F :=
  if (pDates A B).length < 5 then none
  else
    let den := sqrtF (pDenX A B * pDenY A B)
    if den = 0 then none else some (pNum A B / den)

/-- The per-bar indicator record `analyzeAll` assembles for a display
candle `c` sitting at full-series index `bi` (helper for stating the
offset-alignment lemmas; it is exactly the composition of the records built
inside `analyze` and `analyzeAll`). -/
def fullRecordAt (msqrt : ℚ → ℚ) (closes : List ℚ) (allC : List Candle)
    (bbPeriod : ℕ) (bi : ℤ) (c : Candle) : CandleInd :=
  { candle := c
    bbUpper := ((jsGet (bollingerBands msqrt closes bbPeriod 2) bi).join).map Band.upper
    bbMiddle := ((jsGet (bollingerBands msqrt closes bbPeriod 2) bi).join).map Band.middle
    bbLower := ((jsGet (bollingerBands msqrt closes bbPeriod 2) bi).join).map Band.lower
    eom := (jsGet (eom allC 14 14) bi).bind EomEntry.eom
    eomSignal := (jsGet (eom allC 14 14) bi).bind EomEntry.signal
    eomCross := (jsGet (eom allC 14 14) bi).bind EomEntry.crossSignal
    rsi := (jsGet (rsiStoch closes allC
      { rsiPeriod := 14, k1 := 14, k2 := 3, d := 3, ob := 80, os := 20 }) bi).bind RsEntry.rsi
    slowK := (jsGet (rsiStoch closes allC
      { rsiPeriod := 14, k1 := 14, k2 := 3, d := 3, ob := 80, os := 20 }) bi).bind RsEntry.slowK
    slowD := (jsGet (rsiStoch closes allC
      { rsiPeriod := 14, k1 := 14, k2 := 3, d := 3, ob := 80, os := 20 }) bi).bind RsEntry.slowD
    rsiStSignal := (jsGet (rsiStoch closes allC
      { rsiPeriod := 14, k1 := 14, k2 := 3, d := 3, ob := 80, os := 20 }) bi).bind RsEntry.signal }

/-- A concrete five-bar series for exercising the EOM cross logic: every
bar has range 2 and volume 2 (box ratio 1), so the raw EOM values from bar
1 on are the midpoint moves 3, -3, 0, -1. -/
def c5Candles : List Candle :=
  [⟨0, 0, 11, 9, 10, 2⟩, ⟨1, 0, 14, 12, 13, 2⟩, ⟨2, 0, 11, 9, 10, 2⟩,
   ⟨3, 0, 11, 9, 10, 2⟩, ⟨4, 0, 10, 8, 9, 2⟩]

/-! ### Basic lemmas about the embedding -/

theorem mapIdxFrom_get? (f : ℕ → α → β) (k i : ℕ) (l : List α) :
    (mapIdxFrom f k l).get? i = (l.get? i).map (f (k + i)) := by
  induction l generalizing k i with
  | nil => simp [mapIdxFrom]
  | cons a as ih =>
    cases i with
    | zero => simp [mapIdxFrom]
    | succ n =>
      have hk : k + 1 + n = k + (n + 1) := by omega
      show (mapIdxFrom f (k + 1) as).get? n = _
      rw [ih, hk, List.get?_cons_succ]

theorem mapIdxFrom_mem {f : ℕ → α → β} {k : ℕ} {l : List α} {b : β}
    (hb : b ∈ mapIdxFrom f k l) : ∃ j a, a ∈ l ∧ b = f j a := by
  induction l generalizing k with
  | nil => simp [mapIdxFrom] at hb
  | cons a as ih =>
    simp only [mapIdxFrom, List.mem_cons] at hb
    rcases hb with h | h
    · exact ⟨k, a, List.mem_cons_self a as, h⟩
    · obtain ⟨j, a2, ha2, rfl⟩ := ih h
      exact ⟨j, a2, List.mem_cons_of_mem a ha2, rfl⟩

theorem rangeMap_get? (f : ℕ → β) (n i : ℕ) :
    ((List.range n).map f).get? i = if i < n then some (f i) else none := by
  by_cases h : i < n
  · simp [List.get?_eq_getElem?, List.getElem?_range h, h]
  · simp only [List.get?_eq_getElem?]
    rw [List.getElem?_eq_none (by simpa using Nat.le_of_not_lt h)]
    simp [h]

theorem round2_mono {a b : ℚ} (h : a ≤ b) : round2 a ≤ round2 b := by
  unfold round2
  have h1 : (⌊a * 100 + 1/2⌋ : ℤ) ≤ ⌊b * 100 + 1/2⌋ :=
    Int.floor_le_floor (by linarith)
  have h2 : ((⌊a * 100 + 1/2⌋ : ℤ) : ℚ) ≤ ((⌊b * 100 + 1/2⌋ : ℤ) : ℚ) :=
    Int.cast_le.mpr h1
  linarith

theorem variance_nonneg (arr : List ℚ) : 0 ≤ variance arr := by
  unfold variance
  apply div_nonneg
  · apply List.sum_nonneg
    intro x hx
    obtain ⟨v, _, rfl⟩ := List.mem_map.1 hx
    positivity
  · positivity

theorem stdDev_nonneg (msqrt : ℚ → ℚ) (hms : ∀ q, 0 ≤ q → 0 ≤ msqrt q)
    (arr : List ℚ) : 0 ≤ stdDev msqrt arr := by
  unfold stdDev
  split
  · exact le_refl 0
  · exact hms _ (variance_nonneg arr)

theorem variance_of_const {arr : List ℚ}
    (h : ∀ x ∈ arr, ∀ y ∈ arr, x = y) : variance arr = 0 := by
  cases arr with
  | nil => simp [variance]
  | cons a l =>
    have hsum : (a :: l).sum = (a :: l).length • a :=
      List.sum_eq_card_nsmul (a :: l) a
        (fun x hx => h x hx a (List.mem_cons_self a l))
    have hlen : ((a :: l).length : ℚ) ≠ 0 := by
      simp [List.length_cons]
      positivity
    have hmean : mean (a :: l) = a := by
      unfold mean
      rw [if_neg (by simp), hsum]
      rw [nsmul_eq_mul]
      field_simp
    unfold variance
    rw [hmean]
    have : ((a :: l).map fun v => (v - a) ^ 2).sum = 0 := by
      apply List.sum_eq_zero
      intro x hx
      obtain ⟨v, hv, rfl⟩ := List.mem_map.1 hx
      rw [h v hv a (List.mem_cons_self a l)]
      ring
    rw [this]
    simp

theorem bandOf_ordered (msqrt : ℚ → ℚ) (hms : ∀ q, 0 ≤ q → 0 ≤ msqrt q)
    (w : List ℚ) (mult : ℚ) (hm : 0 ≤ mult) :
    (bandOf msqrt w mult).lower ≤ (bandOf msqrt w mult).middle ∧
      (bandOf msqrt w mult).middle ≤ (bandOf msqrt w mult).upper := by
  have h0 : 0 ≤ mult * stdDev msqrt w :=
    mul_nonneg hm (stdDev_nonneg msqrt hms w)
  unfold bandOf
  exact ⟨round2_mono (by linarith), round2_mono (by linarith)⟩

theorem bandOf_const (msqrt : ℚ → ℚ) (hs0 : msqrt 0 = 0) (w : List ℚ)
    (mult : ℚ) (h : ∀ x ∈ w, ∀ y ∈ w, x = y) :
    (bandOf msqrt w mult).lower = (bandOf msqrt w mult).middle ∧
      (bandOf msqrt w mult).middle = (bandOf msqrt w mult).upper := by
  have hsd : stdDev msqrt w = 0 := by
    unfold stdDev
    split
    · rfl
    · rw [variance_of_const h, hs0]
  unfold bandOf
  rw [hsd]
  norm_num

theorem bollingerBands_get? (msqrt : ℚ → ℚ) (closes : List ℚ) (period : ℕ)
    (mult : ℚ) (i : ℕ) :
    (bollingerBands msqrt closes period mult).get? i =
      if i < closes.length then
        some (if i < period - 1 then none
          else some (bandOf msqrt (windowEnd closes period i) mult))
      else none := by
  unfold bollingerBands
  rw [rangeMap_get?]

theorem rsi_get? (closes : List ℚ) (period i : ℕ) (hi : i < closes.length) :
    (rsi closes period).get? i =
      if closes.length < period + 1 then some none
      else some (if i < period then none else some (rsiValF closes period i)) := by
  unfold rsi
  by_cases hn : closes.length < period + 1
  · rw [if_pos hn, if_pos hn]
    simp [List.get?_eq_getElem?, List.getElem?_replicate, hi]
  · rw [if_neg hn, if_neg hn, rangeMap_get?, if_pos hi]

/-! ### Claim theorems -/

/-- C3: `bollingerBands(closes, period)[i]` is null iff `i < period - 1`,
and `rsi(closes, period)[i]` is null iff `i < period`, for every in-range
index. -/
theorem C3_warmup_null_boundary (msqrt : ℚ → ℚ) (closes : List ℚ)
    (period : ℕ) (mult : ℚ) (i : ℕ) (hi : i < closes.length) :
    ((bollingerBands msqrt closes period mult).get? i = some none ↔ i < period - 1)
    ∧ ((rsi closes period).get? i = some none ↔ i < period) := by
  constructor
  · rw [bollingerBands_get?, if_pos hi]
    by_cases h : i < period - 1
    · simp [h]
    · simp [h]
  · rw [rsi_get? closes period i hi]
    by_cases hn : closes.length < period + 1
    · rw [if_pos hn]
      simp only [true_iff]
      omega
    · rw [if_neg hn]
      by_cases h : i < period <;> simp [h]

theorem C3_witness :
    ((0 : ℕ) < ([1, 2, 3] : List ℚ).length) ∧
    (((bollingerBands (fun _ => 0) [1, 2, 3] 2 2).get? 0 = some none ↔ 0 < 2 - 1)
      ∧ ((rsi [1, 2, 3] 2).get? 0 = some none ↔ 0 < 2)) :=
  ⟨by decide, C3_warmup_null_boundary (fun _ => 0) [1, 2, 3] 2 2 0 (by decide)⟩

/-- C6: whenever the current price is strictly above the middle band, the
alert level is 0 — no matter the band values and no matter how far above:
there is no overbought classification. -/
theorem C6_alert_asymmetry (currentPrice upper middle lower : ℚ)
    (h : middle < currentPrice) :
    (alertLevel currentPrice upper middle lower).level = 0 := by
  simp only [alertLevel]
  by_cases hr : (1 : ℚ)/2 ≤ bbRatio currentPrice upper lower
  · rw [if_pos hr]
  · rw [if_neg hr]
    by_cases hl : 0 < middle - lower
    · rw [if_pos hl]
      have h1 : 1 < (currentPrice - lower) / (middle - lower) := by
        rw [lt_div_iff₀ hl]
        linarith
      rw [if_neg (by intro hc; linarith), if_neg (by intro hc; linarith)]
    · rw [if_neg hl]
      norm_num

theorem C6_witness :
    ((10 : ℚ) < 11) ∧ (alertLevel 11 12 10 8).level = 0 :=
  ⟨by norm_num, C6_alert_asymmetry 11 12 10 8 (by norm_num)⟩

/-- C7: with a short history (`length < period`) `latestBB` is null below
2 closes and otherwise computes the band over all available closes; with a
full history it is the final entry of `bollingerBands`. -/
theorem C7_latestBB_degradation (msqrt : ℚ → ℚ) (closes : List ℚ)
    (period : ℕ) (mult : ℚ) :
    (closes.length < period ∧ closes.length < 2 →
      latestBB msqrt closes period mult = none)
    ∧ (closes.length < period ∧ 2 ≤ closes.length →
      latestBB msqrt closes period mult = some (bandOf msqrt closes mult))
    ∧ (period ≤ closes.length →
      latestBB msqrt closes period mult =
        ((bollingerBands msqrt closes period mult).getLast?).join) := by
  unfold latestBB
  refine ⟨fun h => ?_, fun h => ?_, fun h => ?_⟩
  · rw [if_pos h.1, if_pos h.2]
  · rw [if_pos h.1, if_neg (by omega)]
  · rw [if_neg (by omega)]

theorem C7_witness :
    latestBB (fun _ => 0) [1] 20 2 = none ∧
    latestBB (fun _ => 0) [1, 2] 20 2 = some (bandOf (fun _ => 0) [1, 2] 2) ∧
    latestBB (fun _ => 0) [1, 2, 3] 2 2 =
      ((bollingerBands (fun _ => 0) [1, 2, 3] 2 2).getLast?).join :=
  ⟨(C7_latestBB_degradation (fun _ => 0) [1] 20 2).1 (by decide),
   (C7_latestBB_degradation (fun _ => 0) [1, 2] 20 2).2.1 (by decide),
   (C7_latestBB_degradation (fun _ => 0) [1, 2, 3] 2 2).2.2 (by decide)⟩

/-- C2 (amended): every non-null `bollingerBands` entry satisfies
`lower ≤ middle ≤ upper`, and if all closes of the trailing window are equal
(zero variance) then `lower = middle = upper`.  The original claim's
converse — equality *only* under zero variance — is false, see
`C2_counterexample`. -/
theorem C2_band_ordering (msqrt : ℚ → ℚ) (closes : List ℚ) (period : ℕ)
    (mult : ℚ) (i : ℕ) (b : Band) (_hper : 1 ≤ period) (hm : 0 ≤ mult)
    (hms : ∀ q, 0 ≤ q → 0 ≤ msqrt q) (hs0 : msqrt 0 = 0)
    (hb : (bollingerBands msqrt closes period mult).get? i = some (some b)) :
    (b.lower ≤ b.middle ∧ b.middle ≤ b.upper)
    ∧ ((∀ x ∈ windowEnd closes period i, ∀ y ∈ windowEnd closes period i, x = y) →
        (b.lower = b.middle ∧ b.middle = b.upper)) := by
  rw [bollingerBands_get?] at hb
  by_cases hi : i < closes.length
  · rw [if_pos hi] at hb
    by_cases hw : i < period - 1
    · rw [if_pos hw] at hb
      exact absurd hb (by simp)
    · rw [if_neg hw] at hb
      have hbb : b = bandOf msqrt (windowEnd closes period i) mult := by
        injection hb with h1
        injection h1 with h2
        exact h2.symm
      subst hbb
      exact ⟨bandOf_ordered msqrt hms _ mult hm,
             fun hall => bandOf_const msqrt hs0 _ mult hall⟩
  · rw [if_neg hi] at hb
    exact absurd hb (by simp)

/-- C2 counterexample to the claim as stated: with `period = 2`, `mult = 0`
(an allowed parameter choice) the entry at index 1 over closes `[1, 2]` has
`upper = middle = lower = 3/2` although its trailing window `[1, 2]` has
nonzero variance.  The abstract square root is the honest value at the one
point where it is consulted (`msqrt (1/4) = 1/2 = √(1/4)`). -/
theorem C2_counterexample :
    (bollingerBands (fun q => if q = 1/4 then 1/2 else 0) [1, 2] 2 0).get? 1 =
      some (some { upper := 3/2, middle := 3/2, lower := 3/2 }) ∧
    windowEnd [1, 2] 2 1 = [1, 2] ∧ variance [1, 2] ≠ 0 := by
  refine ⟨?_, rfl, ?_⟩
  · rw [bollingerBands_get?]
    norm_num [windowEnd, bandOf, stdDev, variance, mean, round2]
  · norm_num [variance, mean]

theorem C2_witness :
    ((0 : ℚ) ≤ 2) ∧
    ((bollingerBands (fun _ => 0) [1, 2, 3] 2 2).get? 1 =
      some (some { upper := 3/2, middle := 3/2, lower := 3/2 })) ∧
    (({ upper := 3/2, middle := 3/2, lower := 3/2 } : Band).lower ≤
        ({ upper := 3/2, middle := 3/2, lower := 3/2 } : Band).middle ∧
      ({ upper := 3/2, middle := 3/2, lower := 3/2 } : Band).middle ≤
        ({ upper := 3/2, middle := 3/2, lower := 3/2 } : Band).upper) :=
  ⟨by norm_num,
   by rw [bollingerBands_get?]
      norm_num [windowEnd, bandOf, stdDev, variance, mean, round2],
   (C2_band_ordering (fun _ => 0) [1, 2, 3] 2 2 1 ⟨3/2, 3/2, 3/2⟩ (by norm_num)
      (by norm_num) (fun q hq => le_refl 0) rfl
      (by rw [bollingerBands_get?]
          norm_num [windowEnd, bandOf, stdDev, variance, mean, round2])).1⟩

theorem bollingerBands_all_none (msqrt : ℚ → ℚ) (closes : List ℚ)
    (period : ℕ) (mult : ℚ) (hlen : closes.length < 2) (hp : 2 ≤ period)
    (z : ℤ) :
    ((jsGet (bollingerBands msqrt closes period mult) z).join) = none := by
  unfold jsGet
  by_cases hz : z < 0
  · rw [if_pos hz]
    rfl
  · rw [if_neg hz, bollingerBands_get?]
    by_cases ht : z.toNat < closes.length
    · rw [if_pos ht, if_pos (by omega)]
      rfl
    · rw [if_neg ht]
      rfl

/-- C10: with fewer than 2 closes, `analyze` yields a null band, the
default alert `{level 0, label '--', no stars, ratio 0.5}`, `bbRatio` 0.5,
and every display record carries null `bbUpper`/`bbMiddle`/`bbLower`
(`analyze` is total — it never throws). -/
theorem C10_no_band_fallback (msqrt : ℚ → ℚ) (sd : StockData) (period : ℕ)
    (hlen : sd.closes.length < 2) (hp : 2 ≤ period) :
    (analyze msqrt sd period).bb = none
    ∧ (analyze msqrt sd period).bbRatio = 1/2
    ∧ (analyze msqrt sd period).alert =
        { level := 0, label := "--", stars := "", ratio := 1/2 }
    ∧ ∀ r ∈ (analyze msqrt sd period).candlesWithBB,
        r.bbUpper = none ∧ r.bbMiddle = none ∧ r.bbLower = none := by
  have hlat : latestBB msqrt sd.closes period 2 = none := by
    unfold latestBB
    rw [if_pos (by omega), if_pos hlen]
  refine ⟨?_, ?_, ?_, ?_⟩
  · simp only [analyze, hlat]
  · simp only [analyze, hlat]
  · simp only [analyze, hlat]
  · intro r hr
    simp only [analyze] at hr
    obtain ⟨j, c, _, rfl⟩ := mapIdxFrom_mem hr
    refine ⟨?_, ?_, ?_⟩ <;>
      simp only [bollingerBands_all_none msqrt sd.closes period 2 hlen hp,
        Option.map_none']

theorem C10_witness :
    (([5] : List ℚ).length < 2) ∧
    (analyze (fun _ => 0)
      ⟨some [⟨0, 0, 3, 1, 2, 5⟩], [5], [⟨0, 0, 3, 1, 2, 5⟩], 5⟩ 20).bb = none ∧
    (analyze (fun _ => 0)
      ⟨some [⟨0, 0, 3, 1, 2, 5⟩], [5], [⟨0, 0, 3, 1, 2, 5⟩], 5⟩ 20).bbRatio = 1/2 ∧
    (analyze (fun _ => 0)
      ⟨some [⟨0, 0, 3, 1, 2, 5⟩], [5], [⟨0, 0, 3, 1, 2, 5⟩], 5⟩ 20).alert =
      { level := 0, label := "--", stars := "", ratio := 1/2 } :=
  ⟨by norm_num,
   (C10_no_band_fallback (fun _ => 0) _ 20 (by norm_num) (by norm_num)).1,
   (C10_no_band_fallback (fun _ => 0) _ 20 (by norm_num) (by norm_num)).2.1,
   (C10_no_band_fallback (fun _ => 0) _ 20 (by norm_num) (by norm_num)).2.2.1⟩

/-- C8: the three division-by-zero guards.  A zero-range Stochastic window
yields `fastK = 50`; a zero Pearson denominator (zero variance) yields
`null`; a degenerate band range yields `bbRatio = 0.5`.  In the exact
rational/real model every core function is total, so no NaN/Infinity can
arise. -/
theorem C8_division_guards :
    (∀ (candles : List Candle) (k1 i : ℕ), 1 ≤ k1 → k1 - 1 ≤ i →
      i < candles.length →
      maxHigh (candleWindow candles k1 i) - minLow (candleWindow candles k1 i) = 0 →
      fastKF candles k1 i = some 50)
    ∧ (∀ (F : Type) [Field F] [DecidableEq F] (sqrtF : F → F)
        (A B : List (PCandle F)), sqrtF 0 = 0 → pDenX A B * pDenY A B = 0 →
        pearson sqrtF A B = none)
    ∧ (∀ price upper lower : ℚ, upper - lower ≤ 0 →
        bbRatio price upper lower = 1/2) := by
  refine ⟨?_, ?_, ?_⟩
  · intro candles k1 i h1 h2 h3 hrange
    unfold fastKF
    rw [if_neg (by omega)]
    simp only [hrange, if_pos]
  · intro F _ _ sqrtF A B h0 hden
    unfold pearson
    by_cases h5 : (pDates A B).length < 5
    · rw [if_pos h5]
    · rw [if_neg h5]
      simp [hden, h0]
  · intro price upper lower h
    unfold bbRatio
    rw [if_pos h]

theorem C8_witness :
    (maxHigh (candleWindow [(⟨0, 0, 5, 5, 5, 0⟩ : Candle)] 1 0) -
        minLow (candleWindow [(⟨0, 0, 5, 5, 5, 0⟩ : Candle)] 1 0) = 0) ∧
    fastKF [(⟨0, 0, 5, 5, 5, 0⟩ : Candle)] 1 0 = some 50 ∧
    (pDenX [(⟨0, 1⟩ : PCandle ℚ), ⟨1, 2⟩, ⟨2, 1⟩, ⟨3, 2⟩, ⟨4, 1⟩, ⟨5, 2⟩]
        [⟨0, 1⟩, ⟨1, 1⟩, ⟨2, 1⟩, ⟨3, 1⟩, ⟨4, 1⟩, ⟨5, 1⟩] *
      pDenY [(⟨0, 1⟩ : PCandle ℚ), ⟨1, 2⟩, ⟨2, 1⟩, ⟨3, 2⟩, ⟨4, 1⟩, ⟨5, 2⟩]
        [⟨0, 1⟩, ⟨1, 1⟩, ⟨2, 1⟩, ⟨3, 1⟩, ⟨4, 1⟩, ⟨5, 1⟩] = 0) ∧
    pearson (fun q => q) [(⟨0, 1⟩ : PCandle ℚ), ⟨1, 2⟩, ⟨2, 1⟩, ⟨3, 2⟩, ⟨4, 1⟩, ⟨5, 2⟩]
      [⟨0, 1⟩, ⟨1, 1⟩, ⟨2, 1⟩, ⟨3, 1⟩, ⟨4, 1⟩, ⟨5, 1⟩] = none ∧
    ((3 : ℚ) - 3 ≤ 0) ∧ bbRatio 7 3 3 = 1/2 := by
  have h1 : maxHigh (candleWindow [(⟨0, 0, 5, 5, 5, 0⟩ : Candle)] 1 0) -
      minLow (candleWindow [(⟨0, 0, 5, 5, 5, 0⟩ : Candle)] 1 0) = 0 := by
    norm_num [candleWindow, maxHigh, minLow]
  have h2 : pDenX [(⟨0, 1⟩ : PCandle ℚ), ⟨1, 2⟩, ⟨2, 1⟩, ⟨3, 2⟩, ⟨4, 1⟩, ⟨5, 2⟩]
        [⟨0, 1⟩, ⟨1, 1⟩, ⟨2, 1⟩, ⟨3, 1⟩, ⟨4, 1⟩, ⟨5, 1⟩] *
      pDenY [(⟨0, 1⟩ : PCandle ℚ), ⟨1, 2⟩, ⟨2, 1⟩, ⟨3, 2⟩, ⟨4, 1⟩, ⟨5, 2⟩]
        [⟨0, 1⟩, ⟨1, 1⟩, ⟨2, 1⟩, ⟨3, 1⟩, ⟨4, 1⟩, ⟨5, 1⟩] = 0 := by
    norm_num [pDenX, pDenY, pSum, pDates, pRate, rateMap, rateMapAux, mapSet,
      mGet, mKeys, pMeanX, pMeanY]
  exact ⟨h1,
    C8_division_guards.1 _ 1 0 (by norm_num) (by norm_num) (by norm_num) h1,
    h2,
    C8_division_guards.2.1 ℚ (fun q => q) _ _ rfl h2,
    by norm_num,
    C8_division_guards.2.2 7 3 3 (by norm_num)⟩

/-- C4 (amended): a BUY or SELL in `rsiStoch` fires at bar `i` only when
the current `rsi`, `slowK`, `slowD` are non-null, `i ≥ 1`, and the
*previous* `slowK` is non-null.  The original claim also required the
previous `slowD` to be non-null, but the source never checks it: the JS
comparison coerces a null previous `slowD` to 0, so a signal can fire at
the first bar where `slowD` becomes non-null (see `C4_counterexample`). -/
theorem C4_signal_gating (closes : List ℚ) (candles : List Candle)
    (opts : RsOpts) (i : ℕ) (e : RsEntry)
    (he : (rsiStoch closes candles opts).get? i = some e)
    (hs : e.signal ≠ none) :
    e.rsi ≠ none ∧ e.slowK ≠ none ∧ e.slowD ≠ none ∧ 0 < i ∧
    ((stochastic candles opts.k1 opts.k2 opts.d).getD (i - 1)
        { fastK := none, slowK := none, slowD := none }).slowK ≠ none := by
  unfold rsiStoch at he
  rw [mapIdxFrom_get?] at he
  cases hr : (rsi closes opts.rsiPeriod).get? i with
  | none =>
    rw [hr] at he
    exact absurd he (by simp)
  | some r =>
    rw [hr] at he
    simp only [Option.map_some', Nat.zero_add, Option.some.injEq] at he
    subst he
    cases r with
    | none => simp at hs
    | some rv =>
      cases hK : ((stochastic candles opts.k1 opts.k2 opts.d).getD i
          { fastK := none, slowK := none, slowD := none }).slowK with
      | none => rw [hK] at hs; simp at hs
      | some kv =>
        cases hD : ((stochastic candles opts.k1 opts.k2 opts.d).getD i
            { fastK := none, slowK := none, slowD := none }).slowD with
        | none => rw [hK, hD] at hs; simp at hs
        | some dv =>
          rw [hK, hD] at hs
          simp only [hK, hD]
          refine ⟨by simp, by simp, by simp, ?_⟩
          simp only [] at hs
          split_ifs at hs with hSell hBuy
          · exact ⟨hSell.2.2.1.1, hSell.2.2.1.2⟩
          · exact ⟨hBuy.2.2.1.1, hBuy.2.2.1.2⟩
          · exact absurd rfl hs

set_option maxHeartbeats 1600000 in
theorem c4_stoch_eval :
    stochastic [⟨0, 0, 10, 0, 1, 1⟩, ⟨1, 0, 10, 0, 10, 1⟩,
      ⟨2, 0, 20, 0, 16, 1⟩] 2 1 2 =
      [{ fastK := none, slowK := none, slowD := none },
       { fastK := some 100, slowK := some 100, slowD := none },
       { fastK := some 80, slowK := some 80, slowD := some 90 }] := by
  simp [stochastic, fastKF, slowKF, slowDF, candleWindow, minLow,
    maxHigh, mean, round2,
    show List.range 3 = [0, 1, 2] from rfl,
    show List.range 1 = [0] from rfl,
    show List.range 2 = [0, 1] from rfl]
  try norm_num
  try simp
  try norm_num
  try simp
  try norm_num

set_option maxHeartbeats 1600000 in
theorem c4_rsiStoch_eval :
    (rsiStoch [1, 10, 16]
        [⟨0, 0, 10, 0, 1, 1⟩, ⟨1, 0, 10, 0, 10, 1⟩, ⟨2, 0, 20, 0, 16, 1⟩]
        ⟨2, 2, 1, 2, 80, 20⟩).get? 2 =
      some { rsi := some 100, slowK := some 80, slowD := some 90,
             signal := some Sig.SELL } := by
  have hrsi : rsi [1, 10, 16] 2 = [none, none, some 100] := by
    norm_num [rsi, rsiValF, rsiAvgs, closeDiff,
      show List.range 3 = [0, 1, 2] from rfl,
      show List.range 2 = [0, 1] from rfl]
  unfold rsiStoch
  simp only [hrsi, c4_stoch_eval, mapIdxFrom_get?]
  norm_num
  simp

/-- C4 counterexample to the claim as stated: with options
`{rsiPeriod 2, k1 2, k2 1, d 2, ob 80, os 20}`, candles whose stochastic
warm-up ends at bar 2, the previous bar's `slowD` is null and yet bar 2
fires a SELL (rsi 100 > 50, slowK 80 > 70, and the null previous `slowD`
is coerced to 0 so `prevK >= prevD` holds). -/
theorem C4_counterexample :
    ((stochastic [⟨0, 0, 10, 0, 1, 1⟩, ⟨1, 0, 10, 0, 10, 1⟩,
        ⟨2, 0, 20, 0, 16, 1⟩] 2 1 2).getD 1
      { fastK := none, slowK := none, slowD := none }).slowD = none ∧
    (rsiStoch [1, 10, 16]
        [⟨0, 0, 10, 0, 1, 1⟩, ⟨1, 0, 10, 0, 10, 1⟩, ⟨2, 0, 20, 0, 16, 1⟩]
        ⟨2, 2, 1, 2, 80, 20⟩).get? 2 =
      some { rsi := some 100, slowK := some 80, slowD := some 90,
             signal := some Sig.SELL } := by
  constructor
  · rw [c4_stoch_eval]
    rfl
  · exact c4_rsiStoch_eval

theorem C4_witness :
    ((rsiStoch [1, 10, 16]
        [⟨0, 0, 10, 0, 1, 1⟩, ⟨1, 0, 10, 0, 10, 1⟩, ⟨2, 0, 20, 0, 16, 1⟩]
        ⟨2, 2, 1, 2, 80, 20⟩).get? 2 =
      some { rsi := some 100, slowK := some 80, slowD := some 90,
             signal := some Sig.SELL }) ∧
    ((some 100 : Option ℚ) ≠ none ∧ (some 80 : Option ℚ) ≠ none ∧
      (some 90 : Option ℚ) ≠ none ∧ 0 < 2 ∧
      ((stochastic [⟨0, 0, 10, 0, 1, 1⟩, ⟨1, 0, 10, 0, 10, 1⟩,
          ⟨2, 0, 20, 0, 16, 1⟩] 2 1 2).getD (2 - 1)
        { fastK := none, slowK := none, slowD := none }).slowK ≠ none) :=
  ⟨c4_rsiStoch_eval,
   C4_signal_gating [1, 10, 16]
     [⟨0, 0, 10, 0, 1, 1⟩, ⟨1, 0, 10, 0, 10, 1⟩, ⟨2, 0, 20, 0, 16, 1⟩]
     ⟨2, 2, 1, 2, 80, 20⟩ 2 _ c4_rsiStoch_eval (by simp)⟩

theorem eom_get? (candles : List Candle) (period signal i : ℕ) :
    (eom candles period signal).get? i =
      if i < candles.length then
        some { eom := eomArrF candles period i,
               signal := eomSigF candles period signal i,
               crossSignal := eomCrossF candles period signal i }
      else none := by
  unfold eom
  rw [rangeMap_get?]

/-- C5: EOM cross detection fires at most one signal per bar, is evaluated
only when the current and previous `eom` and `signal` values are all
non-null, and follows the stated priority: signal-line up-cross → BUY,
signal-line down-cross → SELL, else zero-line up-cross → BUY, else
zero-line down-cross → SELL; a simultaneous zero-line cross never overrides
a signal-line cross. -/
theorem C5_eom_cross_priority (candles : List Candle) (period signal i : ℕ)
    (entry : EomEntry)
    (he : (eom candles period signal).get? i = some entry) :
    (entry.crossSignal ≠ none →
      entry.eom ≠ none ∧ entry.signal ≠ none ∧
      eomArrF candles period (i - 1) ≠ none ∧
      eomSigF candles period signal (i - 1) ≠ none)
    ∧ (∀ e s ep sp : ℚ, entry.eom = some e → entry.signal = some s →
        eomArrF candles period (i - 1) = some ep →
        eomSigF candles period signal (i - 1) = some sp →
        ((ep ≤ sp ∧ s < e) → entry.crossSignal = some Sig.BUY)
        ∧ (¬(ep ≤ sp ∧ s < e) → (sp ≤ ep ∧ e < s) →
            entry.crossSignal = some Sig.SELL)
        ∧ (¬(ep ≤ sp ∧ s < e) → ¬(sp ≤ ep ∧ e < s) → (ep < 0 ∧ 0 ≤ e) →
            entry.crossSignal = some Sig.BUY)
        ∧ (¬(ep ≤ sp ∧ s < e) → ¬(sp ≤ ep ∧ e < s) → ¬(ep < 0 ∧ 0 ≤ e) →
            (0 ≤ ep ∧ e < 0) → entry.crossSignal = some Sig.SELL)
        ∧ (¬(ep ≤ sp ∧ s < e) → ¬(sp ≤ ep ∧ e < s) → ¬(ep < 0 ∧ 0 ≤ e) →
            ¬(0 ≤ ep ∧ e < 0) → entry.crossSignal = none)) := by
  rw [eom_get?] at he
  by_cases hi : i < candles.length
  · rw [if_pos hi] at he
    injection he with he
    subst he
    constructor
    · intro hx
      have hx2 : eomCrossF candles period signal i ≠ none := hx
      unfold eomCrossF at hx2
      rcases hE : eomArrF candles period i with _ | e <;> rw [hE] at hx2
      · simp at hx2
      rcases hS : eomSigF candles period signal i with _ | s2 <;> rw [hS] at hx2
      · simp at hx2
      rcases hEp : eomArrF candles period (i - 1) with _ | ep <;> rw [hEp] at hx2
      · simp at hx2
      rcases hSp : eomSigF candles period signal (i - 1) with _ | sp <;>
        rw [hSp] at hx2
      · simp at hx2
      exact ⟨by simp [hE], by simp [hS], by simp [hEp], by simp [hSp]⟩
    · intro e s ep sp hee hss hep hsp
      have hee2 : eomArrF candles period i = some e := hee
      have hss2 : eomSigF candles period signal i = some s := hss
      have hgoal : ∀ r : Option Sig, eomCrossF candles period signal i = r ↔
          EomEntry.crossSignal
            { eom := eomArrF candles period i,
              signal := eomSigF candles period signal i,
              crossSignal := eomCrossF candles period signal i } = r :=
        fun r => Iff.rfl
      refine ⟨fun h1 => ?_, fun h1 h2 => ?_, fun h1 h2 h3 => ?_,
              fun h1 h2 h3 h4 => ?_, fun h1 h2 h3 h4 => ?_⟩ <;>
        · rw [← hgoal]
          unfold eomCrossF
          rw [hee2, hss2, hep, hsp]
          simp only []
          first
          | rw [if_pos h1]
          | rw [if_neg h1, if_pos h2]
          | rw [if_neg h1, if_neg h2, if_pos h3]
          | rw [if_neg h1, if_neg h2, if_neg h3, if_pos h4]
          | rw [if_neg h1, if_neg h2, if_neg h3, if_neg h4]
  · rw [if_neg hi] at he
    exact absurd he (by simp)

theorem c5_eomArr_eval :
    eomArrF c5Candles 1 1 = some 3 ∧ eomArrF c5Candles 1 2 = some (-3) ∧
    eomArrF c5Candles 1 3 = some 0 ∧ eomArrF c5Candles 1 4 = some (-1) := by
  refine ⟨?_, ?_, ?_, ?_⟩ <;>
    · norm_num [eomArrF, eomRawF, mean, c5Candles,
        show List.range 1 = [0] from rfl]
      try simp
      try norm_num

theorem c5_eomSig_eval :
    eomSigF c5Candles 1 3 3 = some 0 ∧ eomSigF c5Candles 1 3 4 = some (-4/3) := by
  obtain ⟨h1, h2, h3, h4⟩ := c5_eomArr_eval
  constructor <;>
    · norm_num [eomSigF, h1, h2, h3, h4, mean,
        show c5Candles.length = 5 from rfl,
        show List.range 3 = [0, 1, 2] from rfl]
      try simp
      try norm_num

theorem c5_eom_entry :
    (eom c5Candles 1 3).get? 4 =
      some { eom := some (-1), signal := some (-4/3),
             crossSignal := some Sig.BUY } := by
  obtain ⟨h1, h2, h3, h4⟩ := c5_eomArr_eval
  obtain ⟨hs3, hs4⟩ := c5_eomSig_eval
  rw [eom_get?, if_pos (by norm_num [c5Candles])]
  have hx : eomCrossF c5Candles 1 3 4 = some Sig.BUY := by
    unfold eomCrossF
    rw [h4, hs4, h3, hs3]
    norm_num
  rw [h4, hs4, hx]

theorem C5_witness :
    ((0 : ℚ) ≤ 0 ∧ (-4/3 : ℚ) < -1) ∧
    ((0 : ℚ) ≤ 0 ∧ (-1 : ℚ) < 0) ∧
    ({ eom := some (-1), signal := some (-4/3),
       crossSignal := some Sig.BUY } : EomEntry).crossSignal = some Sig.BUY :=
  ⟨⟨le_refl 0, by norm_num⟩, ⟨le_refl 0, by norm_num⟩,
   ((C5_eom_cross_priority c5Candles 1 3 4 _ c5_eom_entry).2
      (-1) (-4/3) 0 0 rfl rfl c5_eomArr_eval.2.2.1 c5_eomSig_eval.1).1
     ⟨le_refl 0, by norm_num⟩⟩

theorem analyzeAll_get? (msqrt : ℚ → ℚ) (sd : StockData) (bbPeriod i : ℕ)
    (allC : List Candle) (hall : sd.allCandles = some allC) :
    (analyzeAll msqrt sd bbPeriod).candlesWithBB.get? i =
      (sd.candles.get? i).map
        (fullRecordAt msqrt sd.closes allC bbPeriod
          ((allC.length : ℤ) - (sd.candles.length : ℤ) + i)) := by
  simp only [analyzeAll, analyze, hall, Option.getD_some, mapIdxFrom_get?,
    Option.map_map, Nat.zero_add]
  rfl

/-- C1: window-size invariance of `analyzeAll`.  For one fixed full series
(`allCandles`/`closes`) and any two display-window sizes, the records of
the two outputs agree — all ten indicator fields included — at every bar
the windows share (equal full-series index); changing the window size only
changes which bars are visible. -/
theorem C1_window_invariance (msqrt : ℚ → ℚ) (allC : List Candle)
    (closes : List ℚ) (cp : ℚ) (bbPeriod w1 w2 i1 i2 : ℕ)
    (hw1 : w1 ≤ allC.length) (hw2 : w2 ≤ allC.length)
    (hj : allC.length - w1 + i1 = allC.length - w2 + i2)
    (_hi1 : i1 < w1) (_hi2 : i2 < w2) :
    (analyzeAll msqrt
      ⟨some allC, closes, allC.drop (allC.length - w1), cp⟩ bbPeriod).candlesWithBB.get? i1
    = (analyzeAll msqrt
      ⟨some allC, closes, allC.drop (allC.length - w2), cp⟩ bbPeriod).candlesWithBB.get? i2 := by
  rw [analyzeAll_get? msqrt _ bbPeriod i1 allC rfl,
      analyzeAll_get? msqrt _ bbPeriod i2 allC rfl]
  have hlen1 : (allC.drop (allC.length - w1)).length = w1 := by
    rw [List.length_drop]
    omega
  have hlen2 : (allC.drop (allC.length - w2)).length = w2 := by
    rw [List.length_drop]
    omega
  rw [List.get?_drop, List.get?_drop, hlen1, hlen2]
  have hidx : allC.length - w1 + i1 = allC.length - w2 + i2 := hj
  have hz : (allC.length : ℤ) - (w1 : ℤ) + (i1 : ℤ) =
      (allC.length : ℤ) - (w2 : ℤ) + (i2 : ℤ) := by omega
  rw [hidx, hz]

theorem C1_witness :
    (1 ≤ ([⟨0, 0, 3, 1, 2, 5⟩, ⟨1, 0, 4, 2, 3, 5⟩,
        ⟨2, 0, 5, 3, 4, 5⟩] : List Candle).length) ∧
    (2 ≤ ([⟨0, 0, 3, 1, 2, 5⟩, ⟨1, 0, 4, 2, 3, 5⟩,
        ⟨2, 0, 5, 3, 4, 5⟩] : List Candle).length) ∧
    (([⟨0, 0, 3, 1, 2, 5⟩, ⟨1, 0, 4, 2, 3, 5⟩,
        ⟨2, 0, 5, 3, 4, 5⟩] : List Candle).length - 1 + 0 =
      ([⟨0, 0, 3, 1, 2, 5⟩, ⟨1, 0, 4, 2, 3, 5⟩,
        ⟨2, 0, 5, 3, 4, 5⟩] : List Candle).length - 2 + 1) ∧
    ((analyzeAll (fun _ => 0)
        ⟨some [⟨0, 0, 3, 1, 2, 5⟩, ⟨1, 0, 4, 2, 3, 5⟩, ⟨2, 0, 5, 3, 4, 5⟩],
         [2, 3, 4],
         ([⟨0, 0, 3, 1, 2, 5⟩, ⟨1, 0, 4, 2, 3, 5⟩,
           ⟨2, 0, 5, 3, 4, 5⟩] : List Candle).drop
           (([⟨0, 0, 3, 1, 2, 5⟩, ⟨1, 0, 4, 2, 3, 5⟩,
             ⟨2, 0, 5, 3, 4, 5⟩] : List Candle).length - 1), 4⟩
        20).candlesWithBB.get? 0
      = (analyzeAll (fun _ => 0)
        ⟨some [⟨0, 0, 3, 1, 2, 5⟩, ⟨1, 0, 4, 2, 3, 5⟩, ⟨2, 0, 5, 3, 4, 5⟩],
         [2, 3, 4],
         ([⟨0, 0, 3, 1, 2, 5⟩, ⟨1, 0, 4, 2, 3, 5⟩,
           ⟨2, 0, 5, 3, 4, 5⟩] : List Candle).drop
           (([⟨0, 0, 3, 1, 2, 5⟩, ⟨1, 0, 4, 2, 3, 5⟩,
             ⟨2, 0, 5, 3, 4, 5⟩] : List Candle).length - 2), 4⟩
        20).candlesWithBB.get? 1) :=
  ⟨by decide, by decide, by decide,
   C1_window_invariance (fun _ => 0)
     [⟨0, 0, 3, 1, 2, 5⟩, ⟨1, 0, 4, 2, 3, 5⟩, ⟨2, 0, 5, 3, 4, 5⟩]
     [2, 3, 4] 4 20 1 2 0 1
     (by decide) (by decide) (by decide) (by decide) (by decide)⟩

theorem mKeys_mapSet_mem {F : Type} (m : List (ℕ × F)) (k : ℕ) (v : F)
    (a : ℕ) : a ∈ mKeys (mapSet m k v) ↔ a ∈ mKeys m ∨ a = k := by
  induction m with
  | nil => simp [mapSet, mKeys]
  | cons p rest ih =>
    obtain ⟨k2, v2⟩ := p
    by_cases hk : k2 = k
    · subst hk
      simp [mapSet, mKeys]
      tauto
    · simp only [mapSet, if_neg hk, mKeys, List.map_cons, List.mem_cons] at ih ⊢
      rw [ih]
      tauto

theorem mKeys_mapSet_nodup {F : Type} (m : List (ℕ × F)) (k : ℕ) (v : F)
    (h : (mKeys m).Nodup) : (mKeys (mapSet m k v)).Nodup := by
  induction m with
  | nil => simp [mapSet, mKeys]
  | cons p rest ih =>
    obtain ⟨k2, v2⟩ := p
    simp only [mKeys, List.map_cons, List.nodup_cons] at h
    by_cases hk : k2 = k
    · subst hk
      have hms : mapSet ((k2, v2) :: rest) k2 v = (k2, v) :: rest := by
        simp [mapSet]
      rw [hms]
      simpa [mKeys] using h
    · simp only [mapSet, if_neg hk, mKeys, List.map_cons, List.nodup_cons]
      refine ⟨fun hmem => ?_, ih h.2⟩
      rcases (mKeys_mapSet_mem rest k v k2).1 hmem with h2 | h2
      · exact h.1 h2
      · exact hk h2

theorem rateMapAux_keys_nodup {F : Type} [Field F] [DecidableEq F]
    (cs : List (PCandle F)) (prev : PCandle F) (m : List (ℕ × F))
    (h : (mKeys m).Nodup) : (mKeys (rateMapAux prev cs m)).Nodup := by
  induction cs generalizing prev m with
  | nil => exact h
  | cons c rest ih =>
    simp only [rateMapAux]
    split
    · exact ih c _ (mKeys_mapSet_nodup m c.date _ h)
    · exact ih c m h

theorem rateMap_keys_nodup {F : Type} [Field F] [DecidableEq F]
    (cs : List (PCandle F)) : (mKeys (rateMap cs)).Nodup := by
  cases cs with
  | nil => simp [rateMap, mKeys]
  | cons c rest => exact rateMapAux_keys_nodup rest c [] (by simp [mKeys])

theorem mGet_isSome_iff {F : Type} (m : List (ℕ × F)) (d : ℕ) :
    (mGet m d).isSome = true ↔ d ∈ mKeys m := by
  induction m with
  | nil => simp [mGet, mKeys]
  | cons p rest ih =>
    obtain ⟨k2, v2⟩ := p
    by_cases hk : k2 = d
    · subst hk
      simp [mGet, mKeys]
    · simp only [mGet, if_neg hk, mKeys, List.map_cons, List.mem_cons, ih]
      constructor
      · exact fun h => Or.inr h
      · rintro (h | h)
        · exact absurd h.symm hk
        · exact h

theorem pDates_mem {F : Type} [Field F] [DecidableEq F]
    (A B : List (PCandle F)) (d : ℕ) :
    d ∈ pDates A B ↔ d ∈ mKeys (rateMap A) ∧ d ∈ mKeys (rateMap B) := by
  unfold pDates
  rw [List.mem_filter, mGet_isSome_iff]

theorem pDates_nodup {F : Type} [Field F] [DecidableEq F]
    (A B : List (PCandle F)) : (pDates A B).Nodup :=
  (rateMap_keys_nodup A).filter _

theorem pDates_perm {F : Type} [Field F] [DecidableEq F]
    (A B : List (PCandle F)) : (pDates A B).Perm (pDates B A) := by
  refine (List.perm_ext_iff_of_nodup (pDates_nodup A B) (pDates_nodup B A)).2
    fun a => ?_
  rw [pDates_mem, pDates_mem]
  tauto

theorem pSum_swap {F : Type} [Field F] [DecidableEq F]
    (A B : List (PCandle F)) (f : ℕ → F) :
    pSum (pDates A B) f = pSum (pDates B A) f :=
  ((pDates_perm A B).map f).sum_eq

theorem pDates_length_swap {F : Type} [Field F] [DecidableEq F]
    (A B : List (PCandle F)) :
    (pDates A B).length = (pDates B A).length :=
  (pDates_perm A B).length_eq

theorem pSum_congr {F : Type} [Field F] (l : List ℕ) (f g : ℕ → F)
    (h : ∀ d, f d = g d) : pSum l f = pSum l g := by
  unfold pSum
  induction l with
  | nil => rfl
  | cons a t ih => simp [h, ih]

theorem pMeanX_swap {F : Type} [Field F] [DecidableEq F]
    (A B : List (PCandle F)) : pMeanX B A = pMeanY A B := by
  unfold pMeanX pMeanY
  rw [← pSum_swap A B (pRate B), pDates_length_swap A B]

theorem pMeanY_swap {F : Type} [Field F] [DecidableEq F]
    (A B : List (PCandle F)) : pMeanY B A = pMeanX A B := by
  unfold pMeanX pMeanY
  rw [← pSum_swap A B (pRate A), pDates_length_swap A B]

theorem pNum_swap {F : Type} [Field F] [DecidableEq F]
    (A B : List (PCandle F)) : pNum B A = pNum A B := by
  unfold pNum
  rw [pMeanX_swap A B, pMeanY_swap A B, ← pSum_swap A B]
  exact pSum_congr _ _ _ fun d => mul_comm _ _

theorem pDenX_swap {F : Type} [Field F] [DecidableEq F]
    (A B : List (PCandle F)) : pDenX B A = pDenY A B := by
  unfold pDenX pDenY
  rw [pMeanX_swap A B, ← pSum_swap A B]

theorem pDenY_swap {F : Type} [Field F] [DecidableEq F]
    (A B : List (PCandle F)) : pDenY B A = pDenX A B := by
  unfold pDenX pDenY
  rw [pMeanY_swap A B, ← pSum_swap A B]

theorem pearson_symm {F : Type} [Field F] [DecidableEq F] (sqrtF : F → F)
    (A B : List (PCandle F)) : pearson sqrtF A B = pearson sqrtF B A := by
  unfold pearson
  rw [pDenX_swap A B, pDenY_swap A B, pNum_swap A B, ← pDates_length_swap A B,
    mul_comm (pDenY A B) (pDenX A B)]

theorem pSum_eq_range (l : List ℕ) (f : ℕ → ℝ) :
    pSum l f = ∑ j ∈ Finset.range l.length, f (l.getD j 0) := by
  unfold pSum
  induction l with
  | nil => simp
  | cons a t ih =>
    rw [List.map_cons, List.sum_cons, List.length_cons, Finset.sum_range_succ']
    simp [ih, add_comm]

theorem pearson_cauchy_schwarz (A B : List (PCandle ℝ)) :
    (pNum A B) ^ 2 ≤ pDenX A B * pDenY A B := by
  unfold pNum pDenX pDenY
  rw [pSum_eq_range, pSum_eq_range, pSum_eq_range]
  have h := Finset.sum_mul_sq_le_sq_mul_sq (Finset.range (pDates A B).length)
    (fun j => pRate A ((pDates A B).getD j 0) - pMeanX A B)
    (fun j => pRate B ((pDates A B).getD j 0) - pMeanY A B)
  simpa [pow_two] using h

theorem pDenX_nonneg (A B : List (PCandle ℝ)) : 0 ≤ pDenX A B := by
  unfold pDenX pSum
  apply List.sum_nonneg
  intro x hx
  obtain ⟨d, _, rfl⟩ := List.mem_map.1 hx
  exact mul_self_nonneg _

theorem pDenY_nonneg (A B : List (PCandle ℝ)) : 0 ≤ pDenY A B := by
  unfold pDenY pSum
  apply List.sum_nonneg
  intro x hx
  obtain ⟨d, _, rfl⟩ := List.mem_map.1 hx
  exact mul_self_nonneg _

/-- C9: `_pearson` (at the real numbers, with `Math.sqrt` the real square
root) returns null or a correlation within `[-1, 1]`, and is symmetric in
its two candle-series arguments. -/
theorem C9_pearson_bounds_symm (A B : List (PCandle ℝ)) :
    (pearson Real.sqrt A B = none ∨
      ∃ r, pearson Real.sqrt A B = some r ∧ -1 ≤ r ∧ r ≤ 1)
    ∧ pearson Real.sqrt A B = pearson Real.sqrt B A := by
  refine ⟨?_, pearson_symm Real.sqrt A B⟩
  unfold pearson
  by_cases h5 : (pDates A B).length < 5
  · left
    rw [if_pos h5]
  · rw [if_neg h5]
    by_cases hden : Real.sqrt (pDenX A B * pDenY A B) = 0
    · left
      simp [hden]
    · right
      refine ⟨pNum A B / Real.sqrt (pDenX A B * pDenY A B), by simp [hden],
        ?_, ?_⟩
      · have hXY : 0 ≤ pDenX A B * pDenY A B :=
          mul_nonneg (pDenX_nonneg A B) (pDenY_nonneg A B)
        have hpos : 0 < Real.sqrt (pDenX A B * pDenY A B) :=
          lt_of_le_of_ne (Real.sqrt_nonneg _) (Ne.symm hden)
        have hsq : Real.sqrt (pDenX A B * pDenY A B) ^ 2 =
            pDenX A B * pDenY A B := Real.sq_sqrt hXY
        have hcs := pearson_cauchy_schwarz A B
        rw [le_div_iff₀ hpos]
        nlinarith [sq_nonneg (pNum A B + Real.sqrt (pDenX A B * pDenY A B))]
      · have hXY : 0 ≤ pDenX A B * pDenY A B :=
          mul_nonneg (pDenX_nonneg A B) (pDenY_nonneg A B)
        have hpos : 0 < Real.sqrt (pDenX A B * pDenY A B) :=
          lt_of_le_of_ne (Real.sqrt_nonneg _) (Ne.symm hden)
        have hsq : Real.sqrt (pDenX A B * pDenY A B) ^ 2 =
            pDenX A B * pDenY A B := Real.sq_sqrt hXY
        have hcs := pearson_cauchy_schwarz A B
        rw [div_le_one hpos]
        nlinarith [sq_nonneg (pNum A B - Real.sqrt (pDenX A B * pDenY A B))]
